import Mathlib

/-!
Verification development for the `bevy_expected_components` crate.

The crate consists of:
  * a derive macro (`macros/src/lib.rs`, `derive_expect_components`) that turns
    repeatable attribute annotations into an implementation of the
    `ExpectComponents` trait (two accessors: expected `TypeId`s and expected
    display names) plus an inventory registration record;
  * a plugin (`src/lib.rs`, `ExpectedComponentsPlugin::build`) that walks the
    inventory registry and installs an `on_add` hook per declaring type;
  * the hook itself (`src/lib.rs`, `validate_expected`), which checks that every
    expected component is present on the entity at insertion time and panics on
    the first missing one.

The embedding below models type identities and entities as natural numbers,
component-table state and per-entity component sets as association lists, and a
panic as the `error` branch of `Except`.
-/

/-- A panic raised by the validation hook.  In the source the panic message is
formatted from exactly three pieces of data: the declaring type's full name
(`std::any::type_name::<T>()`), the human-readable name of the missing expected
component, and the entity identity.  We keep the three pieces as fields and
render the message with `renderPanic`. -/
structure PanicMsg where
  declaring : String
  missing : String
  entity : Nat
  deriving DecidableEq, Repr

/-- The panic message format string of `validate_expected` in `src/lib.rs`:
`"{} expects {} but it was not found on entity {:?}"`. -/
def renderPanic (m : PanicMsg) : String :=
  m.declaring ++ " expects " ++ m.missing ++ " but it was not found on entity " ++
    Nat.repr m.entity

/-- The data produced for one declaring type `T` by the derive macro: the full
type name of `T`, the `TypeId` of `T` itself (used to key the `on_add` hook),
and the two trait accessors `expected_components()` /
`expected_component_names()`. -/
structure ExpectDecl where
  type_name : String
  self_id : Nat
  expected_components : List Nat
  expected_component_names : List String
  deriving DecidableEq, Repr

/-- The slice of world state the hook reads: the component table mapping
`TypeId` to `ComponentId` (`world.components().get_id`), a counter for fresh
component ids, and each entity's set of component ids
(`world.entity(entity).contains_id`). -/
structure World where
  registered : List (Nat × Nat)
  next_id : Nat
  entity_components : List (Nat × List Nat)
  deriving DecidableEq, Repr

/-- `world.components().get_id(type_id)`: look the `TypeId` up in the component
table, `none` when the type was never registered. -/
def World.get_id (w : World) (type_id : Nat) : Option Nat :=
  (w.registered.find? (fun p => p.1 == type_id)).map (fun p => p.2)

/-- `world.entity(entity).contains_id(cid)`: does the entity currently hold the
component with this `ComponentId`? -/
def World.contains_id (w : World) (entity : Nat) (cid : Nat) : Bool :=
  match w.entity_components.find? (fun p => p.1 == entity) with
  | some p => p.2.contains cid
  | none => false

/-- The presence test of `validate_expected` (`src/lib.rs` lines 193-195):
`world.components().get_id(*type_id).is_some_and(|id|
world.entity(entity).contains_id(id))`.  `false` both when the `TypeId` is
unresolved in the component table and when it resolves but the entity lacks
the component. -/
def has_component (w : World) (entity : Nat) (type_id : Nat) : Bool :=
  match w.get_id type_id with
  | some cid => w.contains_id entity cid
  | none => false

/-- The loop of `validate_expected` over
`expected.iter().zip(names.iter())`: return normally when every pair passes the
presence test, abort with a panic naming the first pair that fails. -/
def validateStep (w : World) (entity : Nat) (tname : String) :
    List (Nat × String) → Except PanicMsg Unit
  | [] => Except.ok ()
  | (tid, name) :: rest =>
    if has_component w entity tid then validateStep w entity tname rest
    else Except.error ⟨tname, name, entity⟩

/-- `validate_expected::<T>` from `src/lib.rs` (lines 184-206): zip the two
accessors and run the presence loop.  A returned `Except.error` models the
panic (fatal and unrecoverable: no caller catches it). -/
def validate_expected (T : ExpectDecl) (w : World) (entity : Nat) :
    Except PanicMsg Unit :=
  validateStep w entity T.type_name
    (T.expected_components.zip T.expected_component_names)

-- Helper lemmas about the validation loop.

theorem validateStep_ok_of_all (w : World) (e : Nat) (tname : String)
    (l : List (Nat × String)) (h : ∀ p ∈ l, has_component w e p.1 = true) :
    validateStep w e tname l = Except.ok () := by
  induction l with
  | nil => rfl
  | cons hd tl ih =>
    obtain ⟨tid, name⟩ := hd
    have hhd : has_component w e tid = true := h (tid, name) (List.mem_cons_self _ _)
    simp [validateStep, hhd]
    exact ih (fun p hp => h p (List.mem_cons_of_mem _ hp))

theorem zip_fst_mem {α β : Type} (l₁ : List α) (l₂ : List β) :
    ∀ p ∈ l₁.zip l₂, p.1 ∈ l₁ := by
  induction l₁ generalizing l₂ with
  | nil => intro p hp; simp [List.zip] at hp
  | cons a l₁ ih =>
    intro p hp
    cases l₂ with
    | nil => simp [List.zip] at hp
    | cons b l₂ =>
      rcases List.mem_cons.mp hp with h | h
      · subst h; exact List.mem_cons_self _ _
      · exact List.mem_cons_of_mem _ (ih l₂ p h)

/-- C1: if, at the moment the insertion hook for a declaring type runs, every
member of its expected set passes the presence test (registered in the world's
component table and present on the entity), then `validate_expected` returns
normally — it does not panic.  The conclusion depends only on the world state
at hook time, so it holds regardless of the order in which the components were
previously inserted. -/
theorem validate_expected_ok_of_all_present (T : ExpectDecl) (w : World)
    (e : Nat) (h : ∀ tid ∈ T.expected_components, has_component w e tid = true) :
    validate_expected T w e = Except.ok () := by
  apply validateStep_ok_of_all
  intro p hp
  exact h p.1 (zip_fst_mem _ _ p hp)

/-- Concrete declaring type used for witnesses: models the test type
`PhysicsBody` with `#[expect(Position, Velocity)]` where `Position` has
`TypeId` 1 and `Velocity` has `TypeId` 2. -/
def physicsBody : ExpectDecl :=
  { type_name := "PhysicsBody"
    self_id := 0
    expected_components := [1, 2]
    expected_component_names := ["Position", "Velocity"] }

/-- A world in which entity 0 holds both expected components of
`physicsBody`: `TypeId` 1 maps to `ComponentId` 10 and `TypeId` 2 to
`ComponentId` 20. -/
def wFull : World :=
  { registered := [(1, 10), (2, 20)]
    next_id := 21
    entity_components := [(0, [10, 20])] }

/-- Witness for C1 at a concrete input. -/
theorem validate_expected_ok_of_all_present_witness :
    (∀ tid ∈ physicsBody.expected_components, has_component wFull 0 tid = true) ∧
      validate_expected physicsBody wFull 0 = Except.ok () :=
  ⟨by decide, validate_expected_ok_of_all_present physicsBody wFull 0 (by decide)⟩

-- The panic message contains each of the three data pieces as a substring.

theorem renderPanic_has_declaring (m : PanicMsg) :
    List.IsInfix m.declaring.data (renderPanic m).data :=
  ⟨[], (" expects " ++ m.missing ++ " but it was not found on entity " ++
      Nat.repr m.entity).data, by simp [renderPanic, String.data_append]⟩

theorem renderPanic_has_missing (m : PanicMsg) :
    List.IsInfix m.missing.data (renderPanic m).data :=
  ⟨(m.declaring ++ " expects ").data,
    (" but it was not found on entity " ++ Nat.repr m.entity).data, by
      simp [renderPanic, String.data_append, List.append_assoc]⟩

theorem renderPanic_has_entity (m : PanicMsg) :
    List.IsInfix (Nat.repr m.entity).data (renderPanic m).data :=
  ⟨(m.declaring ++ " expects " ++ m.missing ++
      " but it was not found on entity ").data, [], by
    simp [renderPanic, String.data_append, List.append_assoc]⟩

-- Error characterization of the validation loop.

theorem validateStep_error_spec (w : World) (e : Nat) (tname : String)
    (l : List (Nat × String)) (h : ∃ p ∈ l, has_component w e p.1 = false) :
    ∃ m, validateStep w e tname l = Except.error m ∧ m.declaring = tname ∧
      m.entity = e ∧ (m.missing ∈ l.map (fun p => p.2)) ∧
      ∃ tid, (tid, m.missing) ∈ l ∧ has_component w e tid = false := by
  induction l with
  | nil => simp at h
  | cons hd tl ih =>
    obtain ⟨tid, name⟩ := hd
    by_cases hc : has_component w e tid = true
    · have htl : ∃ p ∈ tl, has_component w e p.1 = false := by
        obtain ⟨p, hp, hpf⟩ := h
        rcases List.mem_cons.mp hp with rfl | hmem
        · rw [hc] at hpf; cases hpf
        · exact ⟨p, hmem, hpf⟩
      obtain ⟨m, hm, hd, he, hn, htid, hmem, hf⟩ := ih htl
      refine ⟨m, ?_, hd, he, ?_, htid, List.mem_cons_of_mem _ hmem, hf⟩
      · simp [validateStep, hc]; exact hm
      · simp; right; simpa using hn
    · refine ⟨⟨tname, name, e⟩, ?_, rfl, rfl, ?_, tid, ?_, ?_⟩
      · simp [validateStep, hc]
      · simp
      · exact List.mem_cons_self _ _
      · simpa using hc

theorem mem_zip_get? {α β : Type} (l₁ : List α) (l₂ : List β) (p : α × β)
    (h : p ∈ l₁.zip l₂) :
    ∃ i, l₁.get? i = some p.1 ∧ l₂.get? i = some p.2 := by
  induction l₁ generalizing l₂ with
  | nil => simp [List.zip] at h
  | cons a l₁ ih =>
    cases l₂ with
    | nil => simp [List.zip] at h
    | cons b l₂ =>
      rcases List.mem_cons.mp h with rfl | hmem
      · exact ⟨0, rfl, rfl⟩
      · obtain ⟨i, h1, h2⟩ := ih l₂ hmem
        exact ⟨i + 1, h1, h2⟩


theorem zip_get?_of {α β : Type} :
    ∀ (l₁ : List α) (l₂ : List β) (i : Nat) (a : α) (b : β),
      l₁.get? i = some a → l₂.get? i = some b →
      (l₁.zip l₂).get? i = some (a, b) := by
  intro l₁
  induction l₁ with
  | nil => intro l₂ i a b h1 _; simp at h1
  | cons x l₁ ih =>
    intro l₂ i a b h1 h2
    cases l₂ with
    | nil => simp at h2
    | cons y l₂ =>
      cases i with
      | zero =>
        simp at h1 h2
        simp [List.zip, h1, h2]
      | succ i =>
        rw [List.get?_cons_succ] at h1 h2
        simpa [List.zip] using ih l₂ i a b h1 h2

/-- C2: if at the moment the hook for declaring type `T` runs some member of
its expected set fails the presence test (unresolved in the component table,
or resolved but absent from the entity), then `validate_expected` aborts with
a panic; the panic carries `T`'s full type name and the entity identity, the
reported name is the declared name of an expected-set member that is in fact
missing (same index in the two aligned accessor slices), and the rendered
panic message contains all three pieces as substrings. -/
theorem validate_expected_errors_on_missing (T : ExpectDecl) (w : World)
    (e : Nat)
    (hlen : T.expected_component_names.length = T.expected_components.length)
    (h : ∃ tid ∈ T.expected_components, has_component w e tid = false) :
    ∃ m, validate_expected T w e = Except.error m ∧
      m.declaring = T.type_name ∧ m.entity = e ∧
      (∃ i tid, T.expected_components.get? i = some tid ∧
        T.expected_component_names.get? i = some m.missing ∧
        has_component w e tid = false) ∧
      List.IsInfix T.type_name.data (renderPanic m).data ∧
      List.IsInfix m.missing.data (renderPanic m).data ∧
      List.IsInfix (Nat.repr e).data (renderPanic m).data := by
  obtain ⟨tid, hmem, hf⟩ := h
  have hzip : ∃ p ∈ T.expected_components.zip T.expected_component_names,
      has_component w e p.1 = false := by
    obtain ⟨i, hi⟩ := List.mem_iff_get?.mp hmem
    have hlt : i < T.expected_component_names.length := by
      rw [hlen]; exact (List.get?_eq_some.mp hi).1
    have hname : T.expected_component_names.get? i =
        some (T.expected_component_names.get ⟨i, hlt⟩) := List.get?_eq_get hlt
    have hz := zip_get?_of _ _ i _ _ hi hname
    exact ⟨_, List.get?_mem hz, hf⟩
  obtain ⟨m, hm, hdecl, hent, _, tid', hmem', hf'⟩ :=
    validateStep_error_spec w e T.type_name _ hzip
  obtain ⟨i, h1, h2⟩ := mem_zip_get? _ _ _ hmem'
  refine ⟨m, hm, hdecl, hent, ⟨i, tid', h1, h2, hf'⟩, ?_, ?_, ?_⟩
  · have := renderPanic_has_declaring m
    rwa [hdecl] at this
  · exact renderPanic_has_missing m
  · have := renderPanic_has_entity m
    rwa [hent] at this

/-- A world in which entity 0 holds `Position` (`TypeId` 1) but `Velocity`
(`TypeId` 2) is registered yet absent from the entity. -/
def wMissingVelocity : World :=
  { registered := [(1, 10), (2, 20)]
    next_id := 21
    entity_components := [(0, [10])] }

/-- Witness for C2 at a concrete input. -/
theorem validate_expected_errors_on_missing_witness :
    (physicsBody.expected_component_names.length =
        physicsBody.expected_components.length) ∧
      (∃ tid ∈ physicsBody.expected_components,
        has_component wMissingVelocity 0 tid = false) ∧
      (∃ m, validate_expected physicsBody wMissingVelocity 0 = Except.error m ∧
        m.declaring = physicsBody.type_name ∧ m.entity = 0 ∧
        (∃ i tid, physicsBody.expected_components.get? i = some tid ∧
          physicsBody.expected_component_names.get? i = some m.missing ∧
          has_component wMissingVelocity 0 tid = false) ∧
        List.IsInfix physicsBody.type_name.data (renderPanic m).data ∧
        List.IsInfix m.missing.data (renderPanic m).data ∧
        List.IsInfix (Nat.repr 0).data (renderPanic m).data) :=
  ⟨by decide, by decide,
    validate_expected_errors_on_missing physicsBody wMissingVelocity 0
      (by decide) (by decide)⟩

-- Short-circuiting of the validation loop.

theorem validateStep_append_of_present (w : World) (e : Nat) (tname : String)
    (pre rest : List (Nat × String))
    (h : ∀ p ∈ pre, has_component w e p.1 = true) :
    validateStep w e tname (pre ++ rest) = validateStep w e tname rest := by
  induction pre with
  | nil => rfl
  | cons hd tl ih =>
    obtain ⟨tid, name⟩ := hd
    have hhd : has_component w e tid = true := h (tid, name) (List.mem_cons_self _ _)
    simp [validateStep, hhd]
    exact ih (fun p hp => h p (List.mem_cons_of_mem _ hp))

theorem zip_append_of_length {α β : Type} :
    ∀ (l₁ : List α) (l₂ : List β) (l₃ : List α) (l₄ : List β),
      l₁.length = l₂.length →
      (l₁ ++ l₃).zip (l₂ ++ l₄) = l₁.zip l₂ ++ l₃.zip l₄ := by
  intro l₁
  induction l₁ with
  | nil =>
    intro l₂ l₃ l₄ hlen
    cases l₂ with
    | nil => rfl
    | cons y l₂ => simp at hlen
  | cons x l₁ ih =>
    intro l₂ l₃ l₄ hlen
    cases l₂ with
    | nil => simp at hlen
    | cons y l₂ =>
      simp at hlen
      simpa [List.zip] using ih l₂ l₃ l₄ hlen

/-- C3: the validation hook examines the expected types in declared order and
short-circuits.  If the expected list decomposes as a present prefix followed
by a missing entry, the hook panics naming exactly that entry's declared name,
and the result is the same for every possible tail after the first missing
entry — entries past the first missing one are never consulted. -/
theorem validate_expected_short_circuits_on_first_missing (tname : String)
    (sid : Nat) (w : World) (e : Nat) (preT postT : List Nat)
    (preN postN : List String) (tid : Nat) (name : String)
    (hlen : preT.length = preN.length)
    (hpre : ∀ t ∈ preT, has_component w e t = true)
    (hmiss : has_component w e tid = false) :
    validate_expected ⟨tname, sid, preT ++ tid :: postT, preN ++ name :: postN⟩
      w e = Except.error ⟨tname, name, e⟩ := by
  show validateStep w e tname ((preT ++ tid :: postT).zip (preN ++ name :: postN))
    = Except.error ⟨tname, name, e⟩
  rw [zip_append_of_length preT preN (tid :: postT) (name :: postN) hlen]
  rw [validateStep_append_of_present w e tname _ _
    (fun p hp => hpre p.1 (zip_fst_mem _ _ p hp))]
  simp [List.zip, validateStep, hmiss]

/-- Witness for C3 at a concrete input: `Position` (`TypeId` 1) is present,
`Velocity` (`TypeId` 2) is the first missing entry, and an unregistered
trailing entry (`TypeId` 3) is never consulted. -/
theorem validate_expected_short_circuits_on_first_missing_witness :
    ([1].length = ["Position"].length) ∧
      (∀ t ∈ [1], has_component wMissingVelocity 0 t = true) ∧
      has_component wMissingVelocity 0 2 = false ∧
      validate_expected
        ⟨"PhysicsBody", 0, [1] ++ 2 :: [3], ["Position"] ++ "Velocity" :: ["Extra"]⟩
        wMissingVelocity 0 = Except.error ⟨"PhysicsBody", "Velocity", 0⟩ :=
  ⟨by decide, by decide, by decide,
    validate_expected_short_circuits_on_first_missing "PhysicsBody" 0
      wMissingVelocity 0 [1] [3] ["Position"] ["Extra"] 2 "Velocity"
      (by decide) (by decide) (by decide)⟩

-- -------------------------------------------------------------------------
-- Model of the derive macro (`macros/src/lib.rs`, `derive_expect_components`).
-- -------------------------------------------------------------------------

/-- One attribute on the input type declaration, as the macro sees it: its
path (e.g. `expect`) and, for list-style attributes, the parsed
comma-separated list of type paths.  `args = none` models
`parse_args_with` failing, which the source turns into an empty list via
`unwrap_or_default()`. -/
structure Attr where
  path : String
  args : Option (List String)
  deriving DecidableEq, Repr

/-- The `DeriveInput` the macro parses: the type's identifier and its
attributes in declaration order. -/
structure DeriveInput where
  ident : String
  attrs : List Attr
  deriving DecidableEq, Repr

/-- Lines 54-62 of `macros/src/lib.rs`: keep the attributes whose path is
`expect`, parse each one's arguments (empty on parse failure), and
concatenate the lists in declaration order. -/
def collectExpected (input : DeriveInput) : List String :=
  (input.attrs.filter (fun a => a.path == "expect")).flatMap
    (fun a => a.args.getD [])

/-- The code the macro emits for one declaring type: the type's identifier
and the concatenated expected type paths, from which both accessor bodies and
the inventory registration are generated. -/
structure GeneratedImpl where
  ident : String
  expected_paths : List String
  deriving DecidableEq, Repr

/-- `derive_expect_components` from `macros/src/lib.rs`: collect the expected
paths from all `expect` attributes; emit a compile error when the collection
is empty (lines 64-71), otherwise emit the trait implementation plus the
inventory submission. -/
def derive_expect_components (input : DeriveInput) :
    Except String GeneratedImpl :=
  let expected := collectExpected input
  if expected.isEmpty then
    Except.error
      "ExpectComponents derive requires at least one #[expect(Component)] attribute"
  else
    Except.ok { ident := input.ident, expected_paths := expected }

/-- The host's type-identity services consumed by the generated code:
`std::any::TypeId::of::<P>()` and `std::any::type_name::<P>()` for a type
path `P`. -/
structure TypeEnv where
  type_id : String → Nat
  type_name : String → String

/-- The runtime meaning of the generated implementation: the accessor
`expected_components()` returns the `TypeId`s of the collected paths in
order, `expected_component_names()` their display names in the same order,
and the registration record keys the hook on the declaring type itself. -/
def generatedDecl (env : TypeEnv) (g : GeneratedImpl) : ExpectDecl :=
  { type_name := env.type_name g.ident
    self_id := env.type_id g.ident
    expected_components := g.expected_paths.map env.type_id
    expected_component_names := g.expected_paths.map env.type_name }

/-- C4: when the `expect` attributes of the input collectively list zero
expected types, the derive macro produces a compile error (so no trait
implementation and no registration is emitted, and no runtime path exists
for this case). -/
theorem derive_rejects_empty_expected (input : DeriveInput)
    (h : collectExpected input = []) :
    derive_expect_components input =
      Except.error
        "ExpectComponents derive requires at least one #[expect(Component)] attribute" := by
  simp [derive_expect_components, h]

/-- Witness for C4 at a concrete input: a type with no attributes at all. -/
theorem derive_rejects_empty_expected_witness :
    (collectExpected ⟨"Bare", []⟩ = []) ∧
      derive_expect_components ⟨"Bare", []⟩ =
        Except.error
          "ExpectComponents derive requires at least one #[expect(Component)] attribute" :=
  ⟨rfl, derive_rejects_empty_expected ⟨"Bare", []⟩ rfl⟩

-- Concatenation of multiple `expect` attributes.

/-- Attribute lists as written with one repeatable `expect` attribute per
element, e.g. `expect(Position)` then `expect(Velocity)`. -/
def mkExpectAttrs (ls : List (List String)) : List Attr :=
  ls.map (fun l => { path := "expect", args := some l })

theorem collectExpected_mkExpectAttrs (name : String)
    (ls : List (List String)) :
    collectExpected ⟨name, mkExpectAttrs ls⟩ = ls.flatten := by
  induction ls with
  | nil => rfl
  | cons l ls ih =>
    simp only [collectExpected, mkExpectAttrs, List.map_cons, List.filter_cons]
    simp only [collectExpected, mkExpectAttrs] at ih
    simp [ih]

theorem zip_map_pair {α β γ : Type} (f : α → β) (g : α → γ) (l : List α) :
    (l.map f).zip (l.map g) = l.map (fun x => (f x, g x)) := by
  induction l with
  | nil => rfl
  | cons a l ih => simp [List.zip, ih]

/-- C5: a type declaration carrying multiple `expect` attributes has their
expected-type lists concatenated in declaration order into one list; the
derive macro succeeds with exactly that concatenation, so the generated
accessors return it, validation succeeds when every listed type is present on
the entity, and validation panics when any one listed type is missing. -/
theorem derive_concats_multiple_attrs (name : String)
    (ls : List (List String)) (h : ls.flatten ≠ []) :
    derive_expect_components ⟨name, mkExpectAttrs ls⟩ =
        Except.ok ⟨name, ls.flatten⟩ ∧
      (∀ env : TypeEnv, ∀ w : World, ∀ e : Nat,
        (∀ p ∈ ls.flatten, has_component w e (env.type_id p) = true) →
        validate_expected (generatedDecl env ⟨name, ls.flatten⟩) w e =
          Except.ok ()) ∧
      (∀ env : TypeEnv, ∀ w : World, ∀ e : Nat, ∀ p ∈ ls.flatten,
        has_component w e (env.type_id p) = false →
        ∃ m, validate_expected (generatedDecl env ⟨name, ls.flatten⟩) w e =
          Except.error m) := by
  refine ⟨?_, ?_, ?_⟩
  · have hc := collectExpected_mkExpectAttrs name ls
    simp [derive_expect_components, hc, h]
  · intro env w e hall
    apply validateStep_ok_of_all
    intro pr hpr
    have h1 : pr.1 ∈ (generatedDecl env ⟨name, ls.flatten⟩).expected_components :=
      zip_fst_mem _ _ pr hpr
    simp only [generatedDecl, List.mem_map] at h1
    obtain ⟨p, hp, hpe⟩ := h1
    rw [← hpe]
    exact hall p hp
  · intro env w e p hp hf
    have hz : ((env.type_id p, env.type_name p) ∈
        (generatedDecl env ⟨name, ls.flatten⟩).expected_components.zip
          (generatedDecl env ⟨name, ls.flatten⟩).expected_component_names) := by
      simp only [generatedDecl]
      rw [zip_map_pair]
      exact List.mem_map.mpr ⟨p, hp, rfl⟩
    obtain ⟨m, hm, _⟩ := validateStep_error_spec w e
      (generatedDecl env ⟨name, ls.flatten⟩).type_name _ ⟨_, hz, hf⟩
    exact ⟨m, hm⟩

/-- Witness for C5 at a concrete input: two attributes `expect(Position)` and
`expect(Velocity)`. -/
theorem derive_concats_multiple_attrs_witness :
    (([["Position"], ["Velocity"]] : List (List String)).flatten ≠ []) ∧
      (derive_expect_components
          ⟨"PhysicsBody", mkExpectAttrs [["Position"], ["Velocity"]]⟩ =
          Except.ok ⟨"PhysicsBody", [["Position"], ["Velocity"]].flatten⟩ ∧
        (∀ env : TypeEnv, ∀ w : World, ∀ e : Nat,
          (∀ p ∈ ([["Position"], ["Velocity"]] : List (List String)).flatten,
            has_component w e (env.type_id p) = true) →
          validate_expected
            (generatedDecl env
              ⟨"PhysicsBody", [["Position"], ["Velocity"]].flatten⟩) w e =
            Except.ok ()) ∧
        (∀ env : TypeEnv, ∀ w : World, ∀ e : Nat,
          ∀ p ∈ ([["Position"], ["Velocity"]] : List (List String)).flatten,
          has_component w e (env.type_id p) = false →
          ∃ m, validate_expected
            (generatedDecl env
              ⟨"PhysicsBody", [["Position"], ["Velocity"]].flatten⟩) w e =
            Except.error m)) :=
  ⟨by decide,
    derive_concats_multiple_attrs "PhysicsBody" [["Position"], ["Velocity"]]
      (by decide)⟩

-- -------------------------------------------------------------------------
-- Model of the host ECS runtime consumed through the interface of spec S6.
-- -------------------------------------------------------------------------

/-- Modelled from the spec: the host's type-identity service (spec S6,
"resolvable from a runtime-held identifier back to a registered component
slot").  Registering a `TypeId` that already has a component slot is a no-op;
otherwise a fresh `ComponentId` is allocated for it. -/
def World.register_type (w : World) (type_id : Nat) : World :=
  match w.get_id type_id with
  | some _ => w
  | none =>
    { w with
        registered := w.registered ++ [(type_id, w.next_id)]
        next_id := w.next_id + 1 }

/-- Modelled from the spec: record that an entity now holds the component slot
`cid` (the host's entity-component storage update). -/
def addCid : List (Nat × List Nat) → Nat → Nat → List (Nat × List Nat)
  | [], e, cid => [(e, [cid])]
  | (e', cs) :: rest, e, cid =>
    if e' == e then (e', cid :: cs) :: rest
    else (e', cs) :: addCid rest e cid

/-- Modelled from the spec: the host writing one component (identified by its
`TypeId`) onto an entity — register the type if needed, then add the resolved
`ComponentId` to the entity's component set. -/
def World.add_component (w : World) (entity : Nat) (type_id : Nat) : World :=
  match (w.register_type type_id).get_id type_id with
  | some cid =>
    { w.register_type type_id with
        entity_components :=
          addCid (w.register_type type_id).entity_components entity cid }
  | none => w.register_type type_id

/-- Modelled from the spec: writing a whole bundle of components onto one
entity, in bundle order. -/
def insertAll (w : World) (entity : Nat) (type_ids : List Nat) : World :=
  type_ids.foldl (fun acc t => acc.add_component entity t) w

/-- Modelled from the spec: run a sequence of installed validation hooks on
the (deferred, read-only) world; the first panic aborts the operation. -/
def runSeq : List ExpectDecl → World → Nat → Except PanicMsg Unit
  | [], _, _ => Except.ok ()
  | d :: rest, w, e =>
    match validate_expected d w e with
    | Except.ok _ => runSeq rest w e
    | Except.error m => Except.error m

/-- Modelled from the spec: fire the `on_add` hooks keyed to one `TypeId`
(spec S6, "given a component type, accept a callback invoked after that type
is added to an entity").  `hooks` is the list of installed hook bindings; a
binding fires when the inserted type is the binding's declaring type. -/
def runHooksFor (hooks : List ExpectDecl) (type_id : Nat) (w : World)
    (e : Nat) : Except PanicMsg Unit :=
  runSeq (hooks.filter (fun d => d.self_id == type_id)) w e

/-- Modelled from the spec: fire the hooks for every component of an inserted
bundle, in bundle order. -/
def runHooks (hooks : List ExpectDecl) (w : World) (e : Nat) :
    List Nat → Except PanicMsg Unit
  | [] => Except.ok ()
  | tid :: rest =>
    match runHooksFor hooks tid w e with
    | Except.ok _ => runHooks hooks w e rest
    | Except.error m => Except.error m

/-- Modelled from the spec: one spawn/insert operation of the host runtime.
All components of the bundle are written into the entity's storage first, and
only then are the `on_add` hooks fired, one per inserted component, against
the resulting deferred world (spec S8: the repository's own test spawns
`(PhysicsBody, Position, Velocity)` — declaring type first — successfully, so
at hook time every bundle member is already present).  A hook panic aborts
the operation. -/
def spawnBundle (hooks : List ExpectDecl) (w : World) (e : Nat)
    (type_ids : List Nat) : Except PanicMsg World :=
  let w1 := insertAll w e type_ids
  match runHooks hooks w1 e type_ids with
  | Except.ok _ => Except.ok w1
  | Except.error m => Except.error m

/-- Modelled from the spec: the app state the plugin mutates — the list of
installed hook bindings (spec S3, "Runtime Hook Binding"), with multiplicity:
nothing in the host deduplicates bindings. -/
structure AppState where
  hooks : List ExpectDecl
  deriving DecidableEq, Repr

/-- Modelled from the spec: `App::new()` starts with no hook bindings. -/
def AppState.new : AppState := { hooks := [] }

/-- `ExpectedComponentsPlugin::build` from `src/lib.rs` (lines 175-181): walk
every inventory registration and install its hook
(`register_component_hooks::<T>().on_add(validate_expected::<T>)`), with no
deduplication.  `registry` is the inventory registry: one `ExpectDecl` per
declaring type collected at link time. -/
def pluginBuild (registry : List ExpectDecl) (app : AppState) : AppState :=
  { app with hooks := app.hooks ++ registry }


-- Association-list lemmas for the world model.

theorem find?_append_some {α : Type} (l l' : List α) (p : α → Bool) (x : α)
    (h : l.find? p = some x) : (l ++ l').find? p = some x := by
  induction l with
  | nil => simp [List.find?] at h
  | cons a l ih =>
    cases hpa : p a with
    | true => simp_all [List.find?_cons, hpa]
    | false => simp_all [List.find?_cons, hpa]

theorem find?_append_none {α : Type} (l l' : List α) (p : α → Bool)
    (h : l.find? p = none) : (l ++ l').find? p = l'.find? p := by
  induction l with
  | nil => rfl
  | cons a l ih =>
    cases hpa : p a with
    | true => simp [List.find?_cons, hpa] at h
    | false => simp_all [List.find?_cons, hpa]

/-- The component ids an entity currently holds. -/
def lookupComps (l : List (Nat × List Nat)) (e : Nat) : List Nat :=
  ((l.find? (fun p => p.1 == e)).map (fun p => p.2)).getD []

theorem contains_id_eq_lookup (w : World) (e cid : Nat) :
    w.contains_id e cid = (lookupComps w.entity_components e).contains cid := by
  unfold World.contains_id lookupComps
  cases h : w.entity_components.find? (fun p => p.1 == e) with
  | none => simp
  | some p => simp

theorem lookupComps_addCid_self (l : List (Nat × List Nat)) (e cid : Nat) :
    lookupComps (addCid l e cid) e = cid :: lookupComps l e := by
  induction l with
  | nil => simp [addCid, lookupComps, List.find?]
  | cons hd tl ih =>
    obtain ⟨e', cs⟩ := hd
    by_cases he : e' = e
    · subst he
      simp [addCid, lookupComps, List.find?_cons]
    · have hb : (e' == e) = false := by simp [he]
      simpa [addCid, hb, lookupComps, List.find?_cons] using ih

theorem lookupComps_addCid_other (l : List (Nat × List Nat)) (e e' cid : Nat)
    (hne : e' ≠ e) : lookupComps (addCid l e' cid) e = lookupComps l e := by
  have hb0 : (e' == e) = false := by simp [hne]
  induction l with
  | nil => simp [addCid, lookupComps, List.find?, hb0]
  | cons hd tl ih =>
    obtain ⟨e₀, cs⟩ := hd
    by_cases he : e₀ = e'
    · subst he
      have hb : (e₀ == e) = false := by simp [hne]
      simp [addCid, lookupComps, List.find?_cons, hb]
    · have hb : (e₀ == e') = false := by simp [he]
      cases hbe : (e₀ == e) with
      | true => simp [addCid, hb, lookupComps, List.find?_cons, hbe]
      | false => simpa [addCid, hb, lookupComps, List.find?_cons, hbe] using ih

theorem contains_addCid_mono (l : List (Nat × List Nat)) (e e' cid cid' : Nat)
    (h : (lookupComps l e).contains cid = true) :
    (lookupComps (addCid l e' cid') e).contains cid = true := by
  by_cases he : e' = e
  · subst he
    rw [lookupComps_addCid_self]
    simp [List.contains_cons]
    exact Or.inr (by simpa using h)
  · rwa [lookupComps_addCid_other l e e' cid' he]

-- Registration lemmas.

theorem get_id_register_type_mono (w : World) (s t c : Nat)
    (h : w.get_id t = some c) : (w.register_type s).get_id t = some c := by
  unfold World.register_type
  cases hs : w.get_id s with
  | some x => exact h
  | none =>
    obtain ⟨p, hp, hpc⟩ : ∃ p, w.registered.find? (fun q => q.1 == t) = some p
        ∧ p.2 = c := by
      unfold World.get_id at h
      cases hf : w.registered.find? (fun q => q.1 == t) with
      | none => rw [hf] at h; simp at h
      | some p => rw [hf] at h; simp at h; exact ⟨p, rfl, h⟩
    show ((w.registered ++ [(s, w.next_id)]).find? (fun q => q.1 == t)).map
      (fun p => p.2) = some c
    rw [find?_append_some _ _ _ _ hp]
    simp [hpc]

theorem get_id_register_type_self (w : World) (t : Nat) :
    ∃ cid, (w.register_type t).get_id t = some cid := by
  cases hs : w.get_id t with
  | some c =>
    refine ⟨c, ?_⟩
    unfold World.register_type
    rw [hs]
    exact hs
  | none =>
    refine ⟨w.next_id, ?_⟩
    have hf : w.registered.find? (fun q => q.1 == t) = none := by
      unfold World.get_id at hs
      cases hf : w.registered.find? (fun q => q.1 == t) with
      | none => rfl
      | some p => rw [hf] at hs; simp at hs
    unfold World.register_type
    rw [hs]
    show ((w.registered ++ [(t, w.next_id)]).find? (fun q => q.1 == t)).map
      (fun p => p.2) = some w.next_id
    rw [find?_append_none _ _ _ hf]
    simp [List.find?]

theorem entity_components_register_type (w : World) (t : Nat) :
    (w.register_type t).entity_components = w.entity_components := by
  unfold World.register_type
  cases w.get_id t <;> rfl

theorem add_component_cases (w : World) (e t : Nat) :
    ∃ cid, (w.register_type t).get_id t = some cid ∧
      w.add_component e t =
        { w.register_type t with
            entity_components :=
              addCid (w.register_type t).entity_components e cid } := by
  obtain ⟨cid, h⟩ := get_id_register_type_self w t
  refine ⟨cid, h, ?_⟩
  unfold World.add_component
  rw [h]

-- Presence after insertion.

theorem has_component_of (w : World) (e t cid : Nat)
    (hg : w.get_id t = some cid) (hc : w.contains_id e cid = true) :
    has_component w e t = true := by
  unfold has_component
  rw [hg]
  exact hc

theorem has_component_elim (w : World) (e t : Nat)
    (h : has_component w e t = true) :
    ∃ cid, w.get_id t = some cid ∧ w.contains_id e cid = true := by
  unfold has_component at h
  cases hg : w.get_id t with
  | none => rw [hg] at h; simp at h
  | some c => rw [hg] at h; exact ⟨c, rfl, h⟩

theorem has_component_add_self (w : World) (e t : Nat) :
    has_component (w.add_component e t) e t = true := by
  obtain ⟨cid, hg, hw⟩ := add_component_cases w e t
  rw [hw]
  apply has_component_of _ _ _ cid
  · exact hg
  · rw [contains_id_eq_lookup]
    show (lookupComps (addCid (w.register_type t).entity_components e cid)
      e).contains cid = true
    rw [lookupComps_addCid_self]
    simp [List.contains_cons]

theorem has_component_add_mono (w : World) (e e' t t' : Nat)
    (h : has_component w e t = true) :
    has_component (w.add_component e' t') e t = true := by
  obtain ⟨c, hg, hcont⟩ := has_component_elim w e t h
  obtain ⟨cid, hgt, hw⟩ := add_component_cases w e' t'
  rw [hw]
  apply has_component_of _ _ _ c
  · exact get_id_register_type_mono w t' t c hg
  · rw [contains_id_eq_lookup]
    show (lookupComps (addCid (w.register_type t').entity_components e' cid)
      e).contains c = true
    apply contains_addCid_mono
    rw [entity_components_register_type]
    rw [contains_id_eq_lookup] at hcont
    exact hcont

theorem insertAll_preserves (w : World) (e : Nat) (t : Nat)
    (ts : List Nat) (h : has_component w e t = true) :
    has_component (insertAll w e ts) e t = true := by
  induction ts generalizing w with
  | nil => exact h
  | cons s ts ih =>
    exact ih (w.add_component e s) (has_component_add_mono w e e t s h)

theorem insertAll_has (w : World) (e : Nat) (t : Nat) (ts : List Nat)
    (h : t ∈ ts) : has_component (insertAll w e ts) e t = true := by
  induction ts generalizing w with
  | nil => simp at h
  | cons s ts ih =>
    rcases List.mem_cons.mp h with rfl | hmem
    · exact insertAll_preserves (w.add_component e t) e t ts
        (has_component_add_self w e t)
    · exact ih (w.add_component e s) hmem

-- Hook-running lemmas.

theorem runSeq_ok_of_all (l : List ExpectDecl) (w : World) (e : Nat)
    (h : ∀ d ∈ l, validate_expected d w e = Except.ok ()) :
    runSeq l w e = Except.ok () := by
  induction l with
  | nil => rfl
  | cons d l ih =>
    have hd : validate_expected d w e = Except.ok () :=
      h d (List.mem_cons_self _ _)
    simp [runSeq, hd]
    exact ih (fun d hd => h d (List.mem_cons_of_mem _ hd))

theorem runHooks_ok_of_all (hooks : List ExpectDecl) (w : World) (e : Nat)
    (tids : List Nat)
    (h : ∀ tid ∈ tids, runHooksFor hooks tid w e = Except.ok ()) :
    runHooks hooks w e tids = Except.ok () := by
  induction tids with
  | nil => rfl
  | cons tid tids ih =>
    have hd : runHooksFor hooks tid w e = Except.ok () :=
      h tid (List.mem_cons_self _ _)
    simp [runHooks, hd]
    exact ih (fun t ht => h t (List.mem_cons_of_mem _ ht))

theorem runHooksFor_nil (tid : Nat) (w : World) (e : Nat) :
    runHooksFor [] tid w e = Except.ok () := rfl

theorem spawnBundle_nil_hooks (w : World) (e : Nat) (tids : List Nat) :
    spawnBundle [] w e tids = Except.ok (insertAll w e tids) := by
  have h : runHooks [] (insertAll w e tids) e tids = Except.ok () :=
    runHooks_ok_of_all [] _ e tids (fun tid _ => runHooksFor_nil tid _ e)
  simp [spawnBundle, h]

/-- C6: if the `ExpectedComponentsPlugin` is never added to the application,
no validation hook is installed, so no contract is ever checked: spawning any
bundle onto any entity — in particular a declaring type with none of its
expected set — always succeeds and just writes the components. -/
theorem no_plugin_means_no_validation (w : World) (e : Nat)
    (tids : List Nat) :
    spawnBundle (AppState.new).hooks w e tids =
      Except.ok (insertAll w e tids) := by
  show spawnBundle [] w e tids = Except.ok (insertAll w e tids)
  exact spawnBundle_nil_hooks w e tids

/-- C8: plugin installation is not idempotent.  Building the plugin twice on
the same app appends the whole registry to the hook list twice — every
declaring type's validation hook ends up registered twice, with no
deduplication performed. -/
theorem plugin_build_not_idempotent (registry : List ExpectDecl)
    (app : AppState) :
    (pluginBuild registry (pluginBuild registry app)).hooks =
        app.hooks ++ registry ++ registry ∧
      ∀ d : ExpectDecl,
        ((pluginBuild registry (pluginBuild registry AppState.new)).hooks).count d
          = 2 * registry.count d := by
  constructor
  · simp [pluginBuild, List.append_assoc]
  · intro d
    simp [pluginBuild, AppState.new, List.count_append]
    omega

/-- C9: on the success path the validation hooks have zero observable effect.
A hook only reads the deferred world (in the embedding, `validate_expected`
takes the world and returns no world), and when every hook that fires for the
inserted component finds all its expected components present, the insert
operation returns exactly the world produced by the bare component write —
the same result as if no hook were installed at all. -/
theorem success_path_no_observable_effect (hooks : List ExpectDecl)
    (w : World) (e tid : Nat)
    (h : ∀ d ∈ hooks, d.self_id = tid →
      ∀ t ∈ d.expected_components,
        has_component (insertAll w e [tid]) e t = true) :
    spawnBundle hooks w e [tid] = Except.ok (insertAll w e [tid]) ∧
      spawnBundle hooks w e [tid] = spawnBundle [] w e [tid] := by
  have hfor : ∀ t ∈ [tid], runHooksFor hooks t (insertAll w e [tid]) e =
      Except.ok () := by
    intro t ht
    rw [List.mem_singleton] at ht
    subst ht
    apply runSeq_ok_of_all
    intro d hd
    rw [List.mem_filter] at hd
    obtain ⟨hdm, hdt⟩ := hd
    apply validateStep_ok_of_all
    intro p hp
    exact h d hdm (by simpa using hdt) p.1 (zip_fst_mem _ _ p hp)
  have hrun : runHooks hooks (insertAll w e [tid]) e [tid] = Except.ok () :=
    runHooks_ok_of_all hooks _ e [tid] hfor
  constructor
  · simp [spawnBundle, hrun]
  · rw [spawnBundle_nil_hooks]
    simp [spawnBundle, hrun]

/-- Witness for C9 at a concrete input: inserting `physicsBody` (`TypeId` 0)
onto entity 0 of `wFull`, where both expected components are already
present. -/
theorem success_path_no_observable_effect_witness :
    (∀ d ∈ [physicsBody], d.self_id = 0 →
      ∀ t ∈ d.expected_components,
        has_component (insertAll wFull 0 [0]) 0 t = true) ∧
      (spawnBundle [physicsBody] wFull 0 [0] =
          Except.ok (insertAll wFull 0 [0]) ∧
        spawnBundle [physicsBody] wFull 0 [0] = spawnBundle [] wFull 0 [0]) :=
  ⟨by decide,
    success_path_no_observable_effect [physicsBody] wFull 0 0 (by decide)⟩

-- Insertion-order semantics (C7).

/-- The empty world: no registered types, no entities holding components. -/
def w0 : World :=
  { registered := [], next_id := 0, entity_components := [] }

/-- C7 counterexample: the claim asserts that a single combined spawn that
lists the declaring type before the members of its expected set fails.  At
this concrete input — the hook for `physicsBody` installed, and one combined
spawn of `(PhysicsBody, Position, Velocity)` (`TypeId`s `[0, 1, 2]`, declaring
type first) onto a fresh entity — the spawn succeeds, because the host writes
the whole bundle before firing the `on_add` hooks, exactly as the repository's
own test `succeeds_when_all_expected_components_present` (src/lib.rs lines
226-233) demonstrates. -/
theorem combined_spawn_declaring_first_succeeds_cex :
    spawnBundle [physicsBody] w0 0 [0, 1, 2] =
      Except.ok
        { registered := [(0, 0), (1, 1), (2, 2)]
          next_id := 3
          entity_components := [(0, [2, 1, 0])] } := by
  rfl

/-- C7 amended: validation fires at the instant the declaring type's insertion
event is processed.  Inserting the declaring type in an operation of its own
while its expected components are still absent fails — even though later
operations could complete the contract — whereas within one combined spawn
the whole bundle is written before the hooks fire, so any bundle containing
all expected components succeeds regardless of the declaring type's position
in it. -/
theorem declaring_before_expected_semantics (d : ExpectDecl) (w : World)
    (e : Nat) (hne : d.expected_components ≠ [])
    (hlen : d.expected_component_names.length = d.expected_components.length)
    (hmiss : ∀ t ∈ d.expected_components,
      has_component (insertAll w e [d.self_id]) e t = false) :
    (∃ m, spawnBundle [d] w e [d.self_id] = Except.error m ∧
        m.declaring = d.type_name ∧ m.entity = e) ∧
      ∀ tids : List Nat, (∀ t ∈ d.expected_components, t ∈ tids) →
        spawnBundle [d] w e tids = Except.ok (insertAll w e tids) := by
  constructor
  · obtain ⟨t0, ts, hexp⟩ : ∃ t0 ts, d.expected_components = t0 :: ts := by
      cases hc : d.expected_components with
      | nil => exact absurd hc hne
      | cons t0 ts => exact ⟨t0, ts, rfl⟩
    obtain ⟨n0, ns, hnames⟩ :
        ∃ n0 ns, d.expected_component_names = n0 :: ns := by
      cases hc : d.expected_component_names with
      | nil => rw [hc, hexp] at hlen; simp at hlen
      | cons n0 ns => exact ⟨n0, ns, rfl⟩
    have hzmem : (t0, n0) ∈
        d.expected_components.zip d.expected_component_names := by
      rw [hexp, hnames, List.zip_cons_cons]
      exact List.mem_cons_self _ _
    have hf : has_component (insertAll w e [d.self_id]) e t0 = false :=
      hmiss t0 (by rw [hexp]; exact List.mem_cons_self _ _)
    obtain ⟨m, hm, hdecl, hent, _, _⟩ :=
      validateStep_error_spec (insertAll w e [d.self_id]) e d.type_name _
        ⟨(t0, n0), hzmem, hf⟩
    have hval : validate_expected d (insertAll w e [d.self_id]) e =
        Except.error m := hm
    have hfor : runHooksFor [d] d.self_id (insertAll w e [d.self_id]) e =
        Except.error m := by
      unfold runHooksFor
      have hflt : List.filter (fun x => x.self_id == d.self_id) [d] = [d] := by
        simp
      rw [hflt]
      simp [runSeq, hval]
    refine ⟨m, ?_, hdecl, hent⟩
    simp [spawnBundle, runHooks, hfor]
  · intro tids htids
    have hfor : ∀ t ∈ tids,
        runHooksFor [d] t (insertAll w e tids) e = Except.ok () := by
      intro t ht
      unfold runHooksFor
      by_cases hb : d.self_id = t
      · have hflt : List.filter (fun x => x.self_id == t) [d] = [d] := by
          simp [hb]
        rw [hflt]
        have hval : validate_expected d (insertAll w e tids) e =
            Except.ok () :=
          validateStep_ok_of_all _ _ _ _
            (fun p hp => insertAll_has w e p.1 tids
              (htids p.1 (zip_fst_mem _ _ p hp)))
        simp [runSeq, hval]
      · have hflt : List.filter (fun x => x.self_id == t) [d] = [] := by
          simp [hb]
        rw [hflt]
        rfl
    have hrun := runHooks_ok_of_all [d] _ e tids hfor
    simp [spawnBundle, hrun]

/-- Witness for the amended C7 at a concrete input: spawning
`physicsBody` alone first fails, while the combined bundle `[0, 1, 2]`
containing both expected components succeeds. -/
theorem declaring_before_expected_semantics_witness :
    (physicsBody.expected_components ≠ []) ∧
      (physicsBody.expected_component_names.length =
        physicsBody.expected_components.length) ∧
      (∀ t ∈ physicsBody.expected_components,
        has_component (insertAll w0 0 [physicsBody.self_id]) 0 t = false) ∧
      ((∃ m, spawnBundle [physicsBody] w0 0 [physicsBody.self_id] =
            Except.error m ∧
          m.declaring = physicsBody.type_name ∧ m.entity = 0) ∧
        ∀ tids : List Nat, (∀ t ∈ physicsBody.expected_components, t ∈ tids) →
          spawnBundle [physicsBody] w0 0 tids =
            Except.ok (insertAll w0 0 tids)) :=
  ⟨by decide, by decide, by decide,
    declaring_before_expected_semantics physicsBody w0 0 (by decide)
      (by decide) (by decide)⟩

-- Alignment of the two generated accessors (C10).

theorem validateStep_error_mem (w : World) (e : Nat) (tname : String)
    (l : List (Nat × String)) (m : PanicMsg)
    (h : validateStep w e tname l = Except.error m) :
    m.declaring = tname ∧ m.entity = e ∧
      ∃ tid, (tid, m.missing) ∈ l ∧ has_component w e tid = false := by
  induction l with
  | nil => simp [validateStep] at h
  | cons hd tl ih =>
    obtain ⟨tid, name⟩ := hd
    by_cases hc : has_component w e tid = true
    · simp only [validateStep, hc, if_true] at h
      obtain ⟨hdecl, hent, tid', hmem, hf⟩ := ih h
      exact ⟨hdecl, hent, tid', List.mem_cons_of_mem _ hmem, hf⟩
    · have hcf : has_component w e tid = false := by simpa using hc
      simp only [validateStep, hcf, Bool.false_eq_true, if_false,
        Except.error.injEq] at h
      subst h
      exact ⟨rfl, rfl, tid, List.mem_cons_self _ _, hcf⟩

theorem get?_map' {α β : Type} (f : α → β) (l : List α) (i : Nat) :
    (l.map f).get? i = (l.get? i).map f := by
  induction l generalizing i with
  | nil => simp
  | cons a l ih =>
    cases i with
    | zero => rfl
    | succ i => simp [ih i]

/-- C10: for every derive output, the two generated accessors are aligned:
they have equal length, and the entry at index `i` of the name accessor is
the display name of the very type path whose `TypeId` sits at index `i` of
the identity accessor.  Consequently the hook's pairwise iteration reports,
for any panic it raises, the display name belonging to a genuinely missing
`TypeId`.  (Both accessors are pure values computed once from the collected
paths, so every call returns the same value.) -/
theorem generated_accessors_aligned (input : DeriveInput) (g : GeneratedImpl)
    (env : TypeEnv) (h : derive_expect_components input = Except.ok g) :
    (g.ident = input.ident ∧ g.expected_paths = collectExpected input) ∧
      (generatedDecl env g).expected_component_names.length =
        (generatedDecl env g).expected_components.length ∧
      (∀ i : Nat, ∀ p : String, g.expected_paths.get? i = some p →
        (generatedDecl env g).expected_components.get? i =
            some (env.type_id p) ∧
          (generatedDecl env g).expected_component_names.get? i =
            some (env.type_name p)) ∧
      (∀ w : World, ∀ e : Nat, ∀ m : PanicMsg,
        validate_expected (generatedDecl env g) w e = Except.error m →
        ∃ p ∈ g.expected_paths, m.missing = env.type_name p ∧
          has_component w e (env.type_id p) = false) := by
  have hg : g = ⟨input.ident, collectExpected input⟩ := by
    by_cases he : (collectExpected input).isEmpty
    · simp [derive_expect_components, he] at h
    · simp [derive_expect_components, he] at h
      exact h.symm
  refine ⟨⟨by rw [hg], by rw [hg]⟩, by simp [generatedDecl], ?_, ?_⟩
  · intro i p hp
    constructor
    · show (g.expected_paths.map env.type_id).get? i = some (env.type_id p)
      rw [get?_map', hp]
      rfl
    · show (g.expected_paths.map env.type_name).get? i = some (env.type_name p)
      rw [get?_map', hp]
      rfl
  · intro w e m hm
    have hm' : validateStep w e (generatedDecl env g).type_name
        ((generatedDecl env g).expected_components.zip
          (generatedDecl env g).expected_component_names) =
        Except.error m := hm
    obtain ⟨hdecl, hent, tid, hmem, hf⟩ :=
      validateStep_error_mem w e _ _ m hm'
    have hzip : (generatedDecl env g).expected_components.zip
        (generatedDecl env g).expected_component_names =
        g.expected_paths.map (fun p => (env.type_id p, env.type_name p)) := by
      simp [generatedDecl, zip_map_pair]
    rw [hzip] at hmem
    obtain ⟨p, hp, hpe⟩ := List.mem_map.mp hmem
    have h1 : env.type_id p = tid := congrArg Prod.fst hpe
    have h2 : env.type_name p = m.missing := congrArg Prod.snd hpe
    refine ⟨p, hp, h2.symm, ?_⟩
    rw [h1]
    exact hf

/-- Concrete derive input used for the C10 witness: one attribute
`expect(Position, Velocity)`. -/
def inputPB : DeriveInput :=
  { ident := "PhysicsBody", attrs := mkExpectAttrs [["Position", "Velocity"]] }

/-- The derive output for `inputPB`. -/
def genPB : GeneratedImpl :=
  { ident := "PhysicsBody", expected_paths := ["Position", "Velocity"] }

/-- A concrete type environment for the C10 witness. -/
def envSimple : TypeEnv :=
  { type_id := fun s => s.length, type_name := fun s => s }

/-- Witness for C10 at a concrete input. -/
theorem generated_accessors_aligned_witness :
    (derive_expect_components inputPB = Except.ok genPB) ∧
      ((genPB.ident = inputPB.ident ∧
          genPB.expected_paths = collectExpected inputPB) ∧
        (generatedDecl envSimple genPB).expected_component_names.length =
          (generatedDecl envSimple genPB).expected_components.length ∧
        (∀ i : Nat, ∀ p : String, genPB.expected_paths.get? i = some p →
          (generatedDecl envSimple genPB).expected_components.get? i =
              some (envSimple.type_id p) ∧
            (generatedDecl envSimple genPB).expected_component_names.get? i =
              some (envSimple.type_name p)) ∧
        (∀ w : World, ∀ e : Nat, ∀ m : PanicMsg,
          validate_expected (generatedDecl envSimple genPB) w e =
            Except.error m →
          ∃ p ∈ genPB.expected_paths, m.missing = envSimple.type_name p ∧
            has_component w e (envSimple.type_id p) = false)) :=
  ⟨rfl, generated_accessors_aligned inputPB genPB envSimple rfl⟩
